import Mathlib

/-!
A shallow embedding of the embedding-retrieval engine of this repository
(`mmcls/models/retriever/image2image.py`, class `ImageToImageRetriever`),
together with proofs of the behavioural properties stated about it.

Tensor values are modelled as rationals; a 1-D tensor is a `List ℚ` and a
2-D tensor a list of rows.  Fallible Python paths (raising exceptions) are
modelled with `Option`/`Except`.
-/

namespace ImageToImage

/-- An embedding vector: one row of a 2-D tensor. -/
abbrev Vec := List ℚ

/-- A 2-D tensor, as a list of equal-length row vectors. -/
abbrev Mat := List Vec

/-- Inner product of two vectors (`(a * b).sum`). -/
def dot (a b : Vec) : ℚ :=
  (List.zipWith (· * ·) a b).sum

/-- Integer square root by exhaustive search over `0 .. n`.  Structural (so it
evaluates in the kernel) and exact on perfect squares, which are the only
inputs this development evaluates it on. -/
def isqrt (n : ℕ) : ℕ :=
  (List.range (n + 1)).foldl (fun acc k => if k * k ≤ n then k else acc) 0

/-- Square root on `ℚ`, exact on squares of rationals (the numerator and the
denominator of a reduced square are themselves perfect squares).  It stands in
for the real square root inside torch's vector norm; every claim below only
evaluates it on 1-D vectors, where `‖[a]‖ = |a|` is rational and `ratSqrt` is
exact. -/
def ratSqrt (q : ℚ) : ℚ :=
  (isqrt q.num.toNat : ℚ) / (isqrt q.den : ℚ)

/-- Euclidean norm of a vector. -/
def l2norm (a : Vec) : ℚ :=
  ratSqrt (dot a a)

/-- torch's `eps = 1e-8` guarding the denominator of `cosine_similarity`. -/
def cosEps : ℚ := 1 / 100000000

/-- `torch.cosine_similarity` of two vectors:  `x·y / max(‖x‖·‖y‖, eps)`;
on a zero vector the denominator is clamped to `eps` and the similarity is 0. -/
def cosineSim (a b : Vec) : ℚ :=
  dot a b / max (l2norm a * l2norm b) cosEps

/-- The broadcasted similarity matrix computed by
`torch.cosine_similarity(a.unsqueeze(1), b.unsqueeze(0), dim=-1)`:
entry `(i, j)` is the cosine similarity of row `i` of `a` and row `j` of `b`. -/
def cosineMatrix (a b : Mat) : Mat :=
  a.map fun q => b.map fun p => cosineSim q p

/-- The comparator `torch.sort(..., descending=True)` sorts by on
(original position, value) pairs: it compares the values only, descending. -/
def descBy (a b : ℕ × ℚ) : Bool :=
  decide (b.2 ≤ a.2)

/-- ONE admissible implementation of `torch.sort(row, descending=True)` for a
row, keeping the original positions, used to keep the engine pipeline
executable.  The call in `matching` does not pass `stable=True`, so the
program does not guarantee which order this call returns for equal values;
the contract it does guarantee is `IsSortDescResult` below, and no theorem
relies on the tie order this particular implementation happens to pick. -/
def sortDescRow (row : List ℚ) : List (ℕ × ℚ) :=
  row.enum.mergeSort descBy

/-- Result of `ImageToImageRetriever.matching`: the dict with keys
`score` (sorted similarities, one row per query) and `pred_label`
(the corresponding prototype indices). -/
structure MatchResult where
  score : List (List ℚ)
  pred_label : List (List ℕ)
  deriving Repr, DecidableEq

/-- The per-query (index, score) rankings underlying `matching`:
similarity of the query rows against `prototype_vecs`, each row sorted
descending by `torch.sort`. -/
def matchRanked (simFn : Mat → Mat → Mat) (prototype_vecs : Mat)
    (inputs : Mat) : List (List (ℕ × ℚ)) :=
  (simFn inputs prototype_vecs).map sortDescRow

/-- `ImageToImageRetriever.matching`, split into its two returned fields. -/
def matchingWith (simFn : Mat → Mat → Mat) (prototype_vecs : Mat)
    (inputs : Mat) : MatchResult :=
  { score := (matchRanked simFn prototype_vecs inputs).map (fun r => r.map (·.2))
    pred_label := (matchRanked simFn prototype_vecs inputs).map (fun r => r.map (·.1)) }

/-- The contract of `torch.sort(row, descending=True)` as called in
`matching` — with the default `stable=False`: the result is *some* permutation
of the enumerated (index, value) row whose values are non-increasing.  Which
permutation is returned among equal values is unspecified by the program, so
the sort is embedded as this admissibility predicate, not as a function. -/
def IsSortDescResult (row : List ℚ) (pairs : List (ℕ × ℚ)) : Prop :=
  pairs.Perm row.enum ∧ pairs.Pairwise (fun a b => b.2 ≤ a.2)

/-- Admissible outputs of `ImageToImageRetriever.matching` under the
`torch.sort` contract: one admissible ranking per query row of the similarity
matrix, split into the returned `score` and `pred_label` fields. -/
def IsMatchingResult (simFn : Mat → Mat → Mat) (prototype_vecs inputs : Mat)
    (res : MatchResult) : Prop :=
  ∃ rankss : List (List (ℕ × ℚ)),
    List.Forall₂ IsSortDescResult (simFn inputs prototype_vecs) rankss
    ∧ res.score = rankss.map (fun r => r.map (·.2))
    ∧ res.pred_label = rankss.map (fun r => r.map (·.1))

lemma descBy_trans : ∀ a b c : ℕ × ℚ,
    descBy a b = true → descBy b c = true → descBy a c = true := by
  intro a b c hab hbc
  simp only [descBy, decide_eq_true_eq] at *
  exact le_trans hbc hab

lemma descBy_total : ∀ a b : ℕ × ℚ, (descBy a b || descBy b a) = true := by
  intro a b
  simp only [descBy, Bool.or_eq_true, decide_eq_true_eq]
  exact le_total b.2 a.2

lemma cosineMatrix_concrete :
    cosineMatrix [[(1:ℚ)]] [[1], [0], [-1], [1/2]] = [[1, 0, -1, 1]] := by
  norm_num [cosineMatrix, cosineSim, dot, l2norm, ratSqrt, isqrt, cosEps,
    List.range_succ]

/-- The executable pipeline sort satisfies the `torch.sort` contract (it is
one of the admissible orders). -/
lemma sortDescRow_isSortDescResult (row : List ℚ) :
    IsSortDescResult row (sortDescRow row) := by
  constructor
  · exact List.mergeSort_perm _ _
  · have h := List.sorted_mergeSort descBy_trans descBy_total row.enum
    exact h.imp (by intro a b hab; simpa [descBy] using hab)

lemma matchingWith_isMatchingResult (simFn : Mat → Mat → Mat)
    (protos inputs : Mat) :
    IsMatchingResult simFn protos inputs (matchingWith simFn protos inputs) := by
  refine ⟨matchRanked simFn protos inputs, ?_, rfl, rfl⟩
  rw [matchRanked]
  induction simFn inputs protos with
  | nil => exact List.Forall₂.nil
  | cons r rs ih => exact List.Forall₂.cons (sortDescRow_isSortDescResult r) ih

/-- Classification of the admissible rankings of the concrete score row
`[1, 0, -1, 1]`: the two tied scores force exactly the two orders with
prototypes 0 and 3 first (in either order), then 1, then 2. -/
lemma concrete_rank_classification (pairs : List (ℕ × ℚ))
    (h : IsSortDescResult [1, 0, -1, (1:ℚ)] pairs) :
    pairs = [(0, 1), (3, 1), (1, 0), (2, -1)]
    ∨ pairs = [(3, 1), (0, 1), (1, 0), (2, -1)] := by
  obtain ⟨hp, hs⟩ := h
  have henum : ([1, 0, -1, (1:ℚ)]).enum = [(0, 1), (1, 0), (2, -1), (3, 1)] := rfl
  rw [henum] at hp
  haveI : IsAntisymm ℚ (fun a b : ℚ => b ≤ a) :=
    ⟨fun a b h1 h2 => le_antisymm h2 h1⟩
  have htarget : ([1, 1, 0, (-1:ℚ)]).Sorted (fun a b : ℚ => b ≤ a) := by decide
  have hsrc : (pairs.map Prod.snd).Sorted (fun a b : ℚ => b ≤ a) :=
    hs.map Prod.snd (fun a b hab => hab)
  have hsnd : pairs.map Prod.snd = [1, 1, 0, -1] :=
    List.eq_of_perm_of_sorted ((hp.map Prod.snd).trans (by decide)) hsrc htarget
  have hnd : pairs.Nodup := hp.nodup_iff.mpr (by decide)
  rcases pairs with _ | ⟨a, _ | ⟨b, _ | ⟨c, _ | ⟨d, rest⟩⟩⟩⟩ <;>
    simp only [List.map_cons, List.map_nil, List.cons.injEq] at hsnd
  · cases hsnd
  · exact absurd hsnd.2 (by simp)
  · exact absurd hsnd.2.2 (by simp)
  · exact absurd hsnd.2.2.2 (by simp)
  obtain ⟨ha2, hb2, hc2, hd2, hrest⟩ := hsnd
  have hrest' : rest = [] := List.map_eq_nil_iff.mp hrest
  subst hrest'
  simp only [List.nodup_cons, List.mem_cons, List.not_mem_nil, or_false,
    not_or] at hnd
  have hmem : ∀ x ∈ [a, b, c, d], x ∈ [((0:ℕ), (1:ℚ)), (1, 0), (2, -1), (3, 1)] :=
    fun x hx => hp.subset hx
  have ha : a = (0, 1) ∨ a = (3, 1) := by
    have := hmem a (by simp)
    simp only [List.mem_cons, List.not_mem_nil, or_false] at this
    rcases this with h | h | h | h
    · exact Or.inl h
    · rw [h] at ha2; norm_num at ha2
    · rw [h] at ha2; norm_num at ha2
    · exact Or.inr h
  have hb : b = (0, 1) ∨ b = (3, 1) := by
    have := hmem b (by simp)
    simp only [List.mem_cons, List.not_mem_nil, or_false] at this
    rcases this with h | h | h | h
    · exact Or.inl h
    · rw [h] at hb2; norm_num at hb2
    · rw [h] at hb2; norm_num at hb2
    · exact Or.inr h
  have hc : c = (1, 0) := by
    have := hmem c (by simp)
    simp only [List.mem_cons, List.not_mem_nil, or_false] at this
    rcases this with h | h | h | h
    · rw [h] at hc2; norm_num at hc2
    · exact h
    · rw [h] at hc2; norm_num at hc2
    · rw [h] at hc2; norm_num at hc2
  have hd : d = (2, -1) := by
    have := hmem d (by simp)
    simp only [List.mem_cons, List.not_mem_nil, or_false] at this
    rcases this with h | h | h | h
    · rw [h] at hd2; norm_num at hd2
    · rw [h] at hd2; norm_num at hd2
    · exact h
    · rw [h] at hd2; norm_num at hd2
  have hab : a ≠ b := hnd.1.1
  subst hc
  subst hd
  rcases ha with rfl | rfl <;> rcases hb with rfl | rfl
  · exact absurd rfl hab
  · exact Or.inl rfl
  · exact Or.inr rfl
  · exact absurd rfl hab

/-- C1 is false on the code: `matching` calls `torch.sort` without
`stable=True`, so the order among equal scores is unspecified, and for the
concrete corpus the contract admits the ranking `[3, 0, 1, 2]` — the tied
prototypes 0 and 3 in *descending* index order — so neither the ascending
tie-break nor the exact order `[0, 3, 1, 2]` is guaranteed. -/
theorem matching_tiebreak_counterexample :
    ¬ (∀ res : MatchResult,
        IsMatchingResult cosineMatrix [[1], [0], [-1], [1/2]] [[1]] res →
        res.pred_label = [[0, 3, 1, 2]]) := by
  intro hclaim
  have hadm : IsMatchingResult cosineMatrix [[1], [0], [-1], [1/2]] [[1]]
      ⟨[[1, 1, 0, -1]], [[3, 0, 1, 2]]⟩ := by
    refine ⟨[[(3, 1), (0, 1), (1, 0), (2, -1)]], ?_, rfl, rfl⟩
    rw [cosineMatrix_concrete]
    exact List.Forall₂.cons ⟨by decide, by decide⟩ List.Forall₂.nil
  have h := hclaim _ hadm
  exact absurd h (by decide)

/-- C1 amended: every admissible `matching` result sorts each query row's
scores in descending order (a permutation of that row's scores); the order
among equal scores is unspecified, because `torch.sort` is called with its
default `stable=False`.  For the corpus of four one-dimensional embeddings
`[1, 0, -1, 1/2]` under cosine similarity (zero-vector cosine = 0), the query
`[1]` is guaranteed only to rank the tied prototypes 0 and 3 ahead of 1 ahead
of 2: the admissible ranked index orders are exactly `[0, 3, 1, 2]` and
`[3, 0, 1, 2]`, and `[0, 3, 1, 2]` is admissible but not guaranteed. -/
theorem matching_sorts_desc_ties_unspecified :
    (∀ (simFn : Mat → Mat → Mat) (protos inputs : Mat) (res : MatchResult),
        IsMatchingResult simFn protos inputs res →
        List.Forall₂
          (fun row srow =>
            srow.Pairwise (fun a b : ℚ => b ≤ a) ∧ srow.Perm row)
          (simFn inputs protos) res.score)
    ∧ (∀ res : MatchResult,
        IsMatchingResult cosineMatrix [[1], [0], [-1], [1/2]] [[1]] res →
        res.pred_label = [[0, 3, 1, 2]] ∨ res.pred_label = [[3, 0, 1, 2]])
    ∧ IsMatchingResult cosineMatrix [[1], [0], [-1], [1/2]] [[1]]
        ⟨[[1, 1, 0, -1]], [[0, 3, 1, 2]]⟩ := by
  refine ⟨?_, ?_, ?_⟩
  · intro simFn protos inputs res hres
    obtain ⟨rankss, hF, hsc, -⟩ := hres
    rw [hsc, List.forall₂_map_right_iff]
    refine hF.imp ?_
    intro row pairs hpair
    obtain ⟨hp, hs⟩ := hpair
    constructor
    · exact hs.map Prod.snd (fun a b hab => hab)
    · have h := hp.map Prod.snd
      rwa [List.enum_map_snd] at h
  · intro res hres
    obtain ⟨rankss, hF, -, hpl⟩ := hres
    rw [cosineMatrix_concrete] at hF
    rcases hF with - | ⟨hR, hF'⟩
    rcases hF' with - | -
    rcases concrete_rank_classification _ hR with rfl | rfl
    · exact Or.inl (by rw [hpl]; rfl)
    · exact Or.inr (by rw [hpl]; rfl)
  · refine ⟨[[(0, 1), (3, 1), (1, 0), (2, -1)]], ?_, rfl, rfl⟩
    rw [cosineMatrix_concrete]
    exact List.Forall₂.cons ⟨by decide, by decide⟩ List.Forall₂.nil

/-- Witness for C1's amended theorem, at the admissible concrete result whose
ranked order is `[0, 3, 1, 2]`. -/
theorem matching_ties_unspecified_witness :
    (⟨[[1, 1, 0, -1]], [[0, 3, 1, 2]]⟩ : MatchResult).pred_label
        = [[0, 3, 1, 2]]
    ∨ (⟨[[1, 1, 0, -1]], [[0, 3, 1, 2]]⟩ : MatchResult).pred_label
        = [[3, 0, 1, 2]] :=
  matching_sorts_desc_ties_unspecified.2.1 _
    matching_sorts_desc_ties_unspecified.2.2

/-! ## Post-processing (`post_process`) -/

/-- One `ClsDataSample` as the predict path uses it: the predicted score list
(`pred_label.score`, written by `set_pred_score`) and the predicted label list
(`pred_label.label`, written by `set_pred_label`). -/
structure DataSample where
  score : List ℚ
  label : List ℕ
  deriving Repr, DecidableEq

/-- Python list slicing `l[:k]` for an arbitrary integer bound `k`: a
nonnegative bound keeps the first `k` elements (clamped to the length), a
negative bound drops the last `|k|` elements (empty if `|k|` exceeds the
length). -/
def pySlice {α : Type} (l : List α) (k : ℤ) : List α :=
  if 0 ≤ k then l.take k.toNat else l.take (l.length - k.natAbs)

/-- `ImageToImageRetriever.post_process`: with `topk = -1` the samples are
returned unchanged; otherwise `data_samples[0]` is read unconditionally to
obtain `N` (an `IndexError` on an empty list, modelled as `none`) and every
sample's score and label lists are sliced with `[:min(topk, N)]`. -/
def post_process (topk : ℤ) (data_samples : List DataSample) :
    Option (List DataSample) :=
  if topk = -1 then some data_samples
  else
    match data_samples with
    | [] => none
    | s₀ :: _ =>
      let k : ℤ := min topk (s₀.score.length : ℤ)
      some (data_samples.map fun s => ⟨pySlice s.score k, pySlice s.label k⟩)

/-! ## The engine (`ImageToImageRetriever`) -/

/-- The value held by the engine's `prototype` field.  The four documented
kinds are a tensor, a saved-vector path, a dataloader config dict and a
dataloader; `noSource` is the default `None` (no source ever configured) and
`unknownKind` stands for a value of any type outside the documented four.
A dataloader is modelled at the encoder boundary: a list of batches, each item
carrying its stable `sample_idx` and the feature row the image encoder
produces for it; `num` is `len(dataloader.dataset)`. -/
inductive Proto where
  | tensor (t : Mat)
  | path (p : String)
  | dictCfg (num : ℕ) (corpus : List (List (ℕ × Vec)))
  | loader (num : ℕ) (corpus : List (List (ℕ × Vec)))
  | noSource
  | unknownKind

/-- The `similarity_fn` constructor argument: a method name, or a callable
used directly as the measure function. -/
inductive Similarity where
  | name (s : String)
  | callable (f : Mat → Mat → Mat)

/-- The engine state this subsystem reads and writes. -/
structure Engine where
  similarity : Similarity
  prototype : Proto
  prototype_inited : Bool
  prototype_vecs : Option Mat
  topk : ℤ

/-- `ImageToImageRetriever.__init__`, restricted to the retrieval fields: the
similarity configuration and the prototype source are stored without any
validation, the database starts unbuilt (`prototype_inited = False`,
`prototype_vecs = None`).  The constructor has no failure path for these
fields, so it always returns `ok`. -/
def initEngine (similarity_fn : Similarity) (topk : ℤ) (prototype : Proto) :
    Except String Engine :=
  .ok { similarity := similarity_fn, prototype := prototype,
        prototype_inited := false, prototype_vecs := none, topk := topk }

/-- The `similarity_fn` property: a callable is returned directly; the name
`"cosine_similarity"` resolves to the cosine matrix; any other name raises —
and since the raising line reads the nonexistent attribute `similarity_way`,
what actually escapes is an `AttributeError`, not the intended
`RuntimeError`. -/
def Engine.similarity_fn (e : Engine) : Except String (Mat → Mat → Mat) :=
  match e.similarity with
  | .callable f => .ok f
  | .name s =>
    if s = "cosine_similarity" then .ok cosineMatrix
    else .error "AttributeError: object has no attribute similarity_way"

/-- The persisted-file store, mapping a path to the value `torch.load` would
return there: `some t` a saved tensor, `none` a saved `None`.  The adapter
performs no validation of what it reads back; IO failure of a genuinely
missing file is outside the embedding (no claim exercises it). -/
def Store := String → Option Mat

/-- `feat.shape[-1]` of a batch's feature rows. -/
def batchDim (batch : List (ℕ × Vec)) : ℕ :=
  match batch with
  | [] => 0
  | it :: _ => it.2.length

/-- `torch.zeros(num, dim)`. -/
def zerosMat (num dim : ℕ) : Mat :=
  List.replicate num (List.replicate dim 0)

/-- The inner loop of `_get_prototype_from_dataloader`: write each item's
feature row into the buffer at row `sample_idx` (not at an append position). -/
def writeItems (m : Mat) (items : List (ℕ × Vec)) : Mat :=
  items.foldl (fun acc it => acc.set it.1 it.2) m

/-- `ImageToImageRetriever._get_prototype_from_dataloader`, the corpus pass of
one worker: `prototype_vecs` starts as `None`; the first batch allocates the
`num × dim` zero buffer, with `dim` read off that batch's features; every item
is written at its `sample_idx` row.  An empty loader leaves the buffer `None`. -/
def localBuild (num : ℕ) (corpus : List (List (ℕ × Vec))) : Option Mat :=
  corpus.foldl
    (fun acc batch =>
      some (writeItems (acc.getD (zerosMat num (batchDim batch))) batch))
    none

/-- Element-wise sum of two matrices (`zipWith` both ways, as tensors of equal
shape add element-wise). -/
def matAdd (a b : Mat) : Mat :=
  List.zipWith (fun r s => List.zipWith (· + ·) r s) a b

/-- The element-wise sum over all workers' buffers that
`dist.all_reduce(buf, ReduceOp.SUM)` computes *once it has completed*.  The
code launches this collective with `async_op=True` and discards the returned
work handle without ever calling `wait()` (after a `dist.barrier()`), so
completion before a worker proceeds is not guaranteed; what a worker can
actually observe afterwards is constrained only by `AsyncReduceObs` below. -/
def allReduceSum (num dim : ℕ) (bufs : List Mat) : Mat :=
  bufs.foldl matAdd (zerosMat num dim)

/-- What a worker can observe in `prototype_vecs` after
`_get_prototype_from_dataloader` returns: `dist.all_reduce(...,
async_op=True)` is issued and its handle discarded, never awaited, so nothing
forces the reduction to complete before the worker proceeds.  An admissible
observed buffer is the still-unreduced local shard buffer (reduction pending)
or the fully reduced sum (reduction completed). -/
inductive AsyncReduceObs (localBuf reduced : Mat) : Mat → Prop
  | pending : AsyncReduceObs localBuf reduced localBuf
  | completed : AsyncReduceObs localBuf reduced reduced

/-- `ImageToImageRetriever.prepare_prototype` (single process): the
`isinstance` chain.  A tensor is used as-is; a path is loaded; a dict is first
built into a dataloader; a dataloader runs the corpus pass; any other value —
including `None`, the default when no source was configured — matches no
branch and is silently skipped.  The final line marks
`prototype_inited = True` unconditionally; there is no error path and no
validation of the tensor's shape or size. -/
def prepare_prototype (store : Store) (e : Engine) : Engine :=
  let e1 :=
    match e.prototype with
    | .tensor t => { e with prototype_vecs := some t }
    | .path p => { e with prototype_vecs := store p }
    | _ => e
  let e2 :=
    match e1.prototype with
    | .dictCfg num corpus => { e1 with prototype := .loader num corpus }
    | _ => e1
  let e3 :=
    match e2.prototype with
    | .loader num corpus => { e2 with prototype_vecs := localBuild num corpus }
    | _ => e2
  { e3 with prototype_inited := true }

/-- How many corpus batches `prepare_prototype` would iterate on this engine
(one image-encoder pass per batch); zero when no dataloader pass runs. -/
def corpusIterations (e : Engine) : ℕ :=
  match e.prototype with
  | .dictCfg _ corpus => corpus.length
  | .loader _ corpus => corpus.length
  | _ => 0

/-- `ImageToImageRetriever.matching` on the engine: the `similarity_fn`
property is resolved first (an unsupported name raises here, at query time);
calling the resolved function with `prototype_vecs = None` then raises inside
torch. -/
def Engine.matching (e : Engine) (feats : Mat) : Except String MatchResult :=
  match e.similarity_fn with
  | .error msg => .error msg
  | .ok f =>
    match e.prototype_vecs with
    | none => .error "TypeError: prototype_vecs is None"
    | some protos => .ok (matchingWith f protos feats)

/-- `ImageToImageRetriever.predict` with `data_samples=None`: build the
prototype database if it is not ready yet, extract the query features (the
encoder boundary: `inputs` are already feature rows), match, attach one
(score, label) pair per query, post-process.  Returns the engine state after
the call, the number of corpus batches this call iterated, and the result list
(`none` when an exception escapes). -/
def Engine.predict (store : Store) (e : Engine) (inputs : Mat) :
    Engine × ℕ × Option (List DataSample) :=
  let e' := if e.prototype_inited then e else prepare_prototype store e
  let iters := if e.prototype_inited then 0 else corpusIterations e
  let out :=
    match e'.matching inputs with
    | .error _ => none
    | .ok res =>
        post_process e'.topk
          (List.zipWith (fun s l => DataSample.mk s l) res.score res.pred_label)
  (e', iters, out)

/-- `ImageToImageRetriever.dump_prototype`: run the lazy build when the
database is not ready, then `torch.save(self.prototype_vecs, path)`.  Returns
the engine after the implicit build and the updated store. -/
def dump_prototype (store : Store) (e : Engine) (path : String) :
    Engine × Store :=
  let e' := if e.prototype_inited then e else prepare_prototype store e
  (e', fun p => if p = path then e'.prototype_vecs else store p)

/-- An empty store for concrete instantiations: every path holds `None`. -/
def emptyStore : Store := fun _ => none

/-! ## Top-k post-processing: claims C2, C9, C10 -/

/-- C2: with a ready database of `N` prototypes (every sample carries `N`
ranked scores and indices), `post_process` keeps the full ranking when the
configured top-k is `-1`; for a nonnegative top-k it truncates every sample's
scores and indices to exactly `min(topk, N)` entries; and requesting
`topk = N + 5` returns all `N` ranked entries unchanged, not an error. -/
theorem topk_full_or_clamped (topk : ℤ) (N : ℕ) (samples : List DataSample)
    (hlen : ∀ s ∈ samples, s.score.length = N ∧ s.label.length = N) :
    (topk = -1 → post_process topk samples = some samples)
    ∧ (0 ≤ topk → samples ≠ [] →
        post_process topk samples
          = some (samples.map fun s =>
              ⟨s.score.take (min topk.toNat N), s.label.take (min topk.toNat N)⟩))
    ∧ (topk = (N : ℤ) + 5 → samples ≠ [] →
        post_process topk samples = some samples) := by
  refine ⟨fun h => by simp [post_process, h], ?_, ?_⟩
  · intro htk hne
    cases samples with
    | nil => exact absurd rfl hne
    | cons s₀ rest =>
      have hN : s₀.score.length = N := (hlen s₀ (List.mem_cons_self _ _)).1
      have h0 : 0 ≤ min topk ((s₀.score.length : ℕ) : ℤ) := by
        rw [hN]; omega
      have hmin : (min topk ((s₀.score.length : ℕ) : ℤ)).toNat
          = min topk.toNat N := by
        rw [hN]; omega
      simp only [post_process, if_neg (show ¬ topk = -1 by omega)]
      refine congrArg some (List.map_congr_left ?_)
      intro s _hs
      simp only [pySlice, if_pos h0, hmin]
  · intro htk hne
    cases samples with
    | nil => exact absurd rfl hne
    | cons s₀ rest =>
      have hN : s₀.score.length = N := (hlen s₀ (List.mem_cons_self _ _)).1
      have hk : min topk ((s₀.score.length : ℕ) : ℤ) = (N : ℤ) := by
        rw [hN]; omega
      simp only [post_process, if_neg (show ¬ topk = -1 by omega), hk]
      refine congrArg some ?_
      have hid : ∀ s ∈ s₀ :: rest,
          (⟨pySlice s.score (N : ℤ), pySlice s.label (N : ℤ)⟩ : DataSample) = s := by
        intro s hs
        obtain ⟨h1, h2⟩ := hlen s hs
        have hsc : pySlice s.score (N : ℤ) = s.score := by
          simp [pySlice, ← h1, List.take_length]
        have hlb : pySlice s.label (N : ℤ) = s.label := by
          simp [pySlice, ← h2, List.take_length]
        rw [hsc, hlb]
      calc (s₀ :: rest).map
            (fun s => (⟨pySlice s.score (N : ℤ), pySlice s.label (N : ℤ)⟩ : DataSample))
          = (s₀ :: rest).map id := List.map_congr_left hid
        _ = s₀ :: rest := List.map_id _

/-- Witness for C2 at `N = 2`, `topk = N + 5 = 7` and a single sample. -/
theorem topk_full_or_clamped_witness :
    post_process 7 [⟨[5, 3], [0, 1]⟩] = some [⟨[5, 3], [0, 1]⟩] :=
  (topk_full_or_clamped 7 2 [⟨[5, 3], [0, 1]⟩]
      (by intro s hs; simp at hs; simp [hs])).2.2 (by norm_num) (by simp)

/-- C9: for a configured top-k strictly below `-1` (outside the documented
domain), `post_process` neither keeps the full ranking nor raises: the Python
slice `[:topk]` with a negative bound keeps the first `N + topk` of the `N`
ranked entries (strictly fewer than `N`). -/
theorem negative_topk_python_slice (topk : ℤ) (N : ℕ) (samples : List DataSample)
    (htk : topk < -1) (habs : topk.natAbs ≤ N) (hne : samples ≠ [])
    (hlen : ∀ s ∈ samples, s.score.length = N ∧ s.label.length = N) :
    post_process topk samples
      = some (samples.map fun s =>
          ⟨s.score.take (N - topk.natAbs), s.label.take (N - topk.natAbs)⟩)
    ∧ ((N - topk.natAbs : ℕ) : ℤ) = (N : ℤ) + topk
    ∧ N - topk.natAbs < N := by
  refine ⟨?_, by omega, by omega⟩
  cases samples with
  | nil => exact absurd rfl hne
  | cons s₀ rest =>
    have hN : s₀.score.length = N := (hlen s₀ (List.mem_cons_self _ _)).1
    have hk : min topk ((s₀.score.length : ℕ) : ℤ) = topk := by
      rw [hN]; omega
    simp only [post_process, if_neg (show ¬ topk = -1 by omega), hk]
    refine congrArg some (List.map_congr_left ?_)
    intro s hs
    obtain ⟨h1, h2⟩ := hlen s hs
    simp only [pySlice, if_neg (show ¬ 0 ≤ topk by omega), h1, h2]

/-- Witness for C9 at `N = 3`, `topk = -2`: the slice keeps the first entry. -/
theorem negative_topk_python_slice_witness :
    post_process (-2) [⟨[9, 8, 7], [2, 0, 1]⟩] = some [⟨[9], [2]⟩] := by
  have h := (negative_topk_python_slice (-2) 3 [⟨[9, 8, 7], [2, 0, 1]⟩]
      (by norm_num) (by norm_num) (by simp)
      (by intro s hs; simp at hs; simp [hs])).1
  simpa using h

/-! ## Engine-state lemmas -/

lemma prepare_prototype_inited (store : Store) (e : Engine) :
    (prepare_prototype store e).prototype_inited = true := rfl

lemma prepare_prototype_topk (store : Store) (e : Engine) :
    (prepare_prototype store e).topk = e.topk := by
  cases h : e.prototype <;> simp [prepare_prototype, h]

lemma prepare_prototype_similarity (store : Store) (e : Engine) :
    (prepare_prototype store e).similarity = e.similarity := by
  cases h : e.prototype <;> simp [prepare_prototype, h]

lemma predict_fst (store : Store) (e : Engine) (inputs : Mat) :
    (e.predict store inputs).1
      = if e.prototype_inited then e else prepare_prototype store e := rfl

lemma predict_iterations (store : Store) (e : Engine) (inputs : Mat) :
    (e.predict store inputs).2.1
      = if e.prototype_inited then 0 else corpusIterations e := rfl

lemma predict_out (store : Store) (e : Engine) (inputs : Mat) :
    (e.predict store inputs).2.2
      = match (if e.prototype_inited then e
            else prepare_prototype store e).matching inputs with
        | .error _ => none
        | .ok res =>
            post_process (if e.prototype_inited then e
                else prepare_prototype store e).topk
              (List.zipWith (fun s l => DataSample.mk s l) res.score
                res.pred_label) := rfl

/-- C10: when the configured top-k is not `-1` (and the similarity is the
default cosine), post-processing reads `data_samples[0]` unconditionally, so a
`predict` call over an empty batch of inputs hits an index error (`none`)
instead of returning an empty result list; at the `post_process` level the
empty result list is itself an error. -/
theorem empty_batch_index_error (store : Store) (e : Engine)
    (htk : e.topk ≠ -1) (hsim : e.similarity = .name "cosine_similarity") :
    post_process e.topk [] = none ∧ (e.predict store []).2.2 = none := by
  constructor
  · simp [post_process, htk]
  · have hsim' : (if e.prototype_inited then e
        else prepare_prototype store e).similarity
        = .name "cosine_similarity" := by
      split
      · exact hsim
      · rw [prepare_prototype_similarity]; exact hsim
    have htk' : (if e.prototype_inited then e
        else prepare_prototype store e).topk = e.topk := by
      split
      · rfl
      · exact prepare_prototype_topk store e
    rw [predict_out]
    cases hv : (if e.prototype_inited then e
        else prepare_prototype store e).prototype_vecs with
    | none => simp [Engine.matching, Engine.similarity_fn, hsim', hv]
    | some protos =>
      simp [Engine.matching, Engine.similarity_fn, hsim', hv, matchingWith,
        matchRanked, cosineMatrix, post_process, htk', htk]

/-- Witness for C10: a ready engine with `topk = 3` and an empty query batch. -/
theorem empty_batch_index_error_witness :
    post_process (3 : ℤ)  [] = none
    ∧ ((Engine.mk (.name "cosine_similarity") (.tensor [[1]]) true
          (some [[1]]) 3).predict emptyStore []).2.2 = none :=
  empty_batch_index_error emptyStore
    (Engine.mk (.name "cosine_similarity") (.tensor [[1]]) true (some [[1]]) 3)
    (by norm_num) rfl

/-! ## Lazy one-shot build: claim C3 -/

/-- C3: the build is lazy and fires exactly once.  A `predict` call on an
engine that is not ready runs `prepare_prototype` synchronously (iterating the
whole corpus once) and leaves the state ready; a `predict` call on a ready
engine changes nothing and iterates no corpus batch; in particular the call
after a first `predict` performs no further build or corpus iteration. -/
theorem lazy_build_fires_once (store : Store) (e : Engine)
    (inputs inputs2 : Mat) :
    (e.predict store inputs).1.prototype_inited = true
    ∧ (e.prototype_inited = false →
        (e.predict store inputs).1 = prepare_prototype store e
        ∧ (e.predict store inputs).2.1 = corpusIterations e)
    ∧ (e.prototype_inited = true →
        (e.predict store inputs).1 = e ∧ (e.predict store inputs).2.1 = 0)
    ∧ ((e.predict store inputs).1.predict store inputs2).2.1 = 0
    ∧ ((e.predict store inputs).1.predict store inputs2).1
        = (e.predict store inputs).1 := by
  cases hin : e.prototype_inited
  · refine ⟨?_, fun _ => ⟨?_, ?_⟩, fun h => absurd h (by simp [hin]), ?_, ?_⟩ <;>
      simp [predict_fst, predict_iterations, hin, prepare_prototype_inited]
  · refine ⟨?_, fun h => absurd h (by simp [hin]), fun _ => ⟨?_, ?_⟩, ?_, ?_⟩ <;>
      simp [predict_fst, predict_iterations, hin]

/-- Witness for C3 at a concrete unbuilt engine over a two-batch corpus. -/
theorem lazy_build_fires_once_witness :
    (((Engine.mk (.name "cosine_similarity")
          (.loader 2 [[(0, [1])], [(1, [2])]]) false none (-1)).predict
        emptyStore [[1]]).1.predict emptyStore [[1]]).2.1 = 0 :=
  (lazy_build_fires_once emptyStore
    (Engine.mk (.name "cosine_similarity")
      (.loader 2 [[(0, [1])], [(1, [2])]]) false none (-1))
    [[1]] [[1]]).2.2.2.1

/-! ## Unknown or missing source: claim C4 (corrected) -/

/-- C4 is false on the code: with no source ever configured (`None`), the
build raises no configuration error at all — `prepare_prototype` falls through
every `isinstance` branch, leaves `prototype_vecs = None`, and still marks the
database ready. -/
theorem unknown_source_counterexample :
    ∃ e, initEngine (.name "cosine_similarity") (-1) .noSource = .ok e
      ∧ (prepare_prototype emptyStore e).prototype_inited = true
      ∧ (prepare_prototype emptyStore e).prototype_vecs = none :=
  ⟨_, rfl, rfl, rfl⟩

/-- C4 amended: with an unknown-kind or never-configured source, the build
silently succeeds, marking the database ready with no vectors; the failure
only surfaces on the next `predict`, inside `matching` (a type error on the
`None` database, or the unsupported-name error), which produces no results. -/
theorem unknown_source_marks_ready_and_predict_fails
    (store : Store) (e : Engine) (inputs : Mat)
    (hsrc : e.prototype = .noSource ∨ e.prototype = .unknownKind)
    (hvec : e.prototype_vecs = none) :
    (prepare_prototype store e).prototype_inited = true
    ∧ (prepare_prototype store e).prototype_vecs = none
    ∧ (e.predict store inputs).2.2 = none := by
  have hprep : (prepare_prototype store e).prototype_vecs = none := by
    rcases hsrc with h | h <;> simp [prepare_prototype, h, hvec]
  refine ⟨rfl, hprep, ?_⟩
  have hv : (if e.prototype_inited then e
      else prepare_prototype store e).prototype_vecs = none := by
    split
    · exact hvec
    · exact hprep
  show (match (if e.prototype_inited then e
        else prepare_prototype store e).matching inputs with
      | .error _ => none
      | .ok res => post_process _ _) = none
  rw [Engine.matching]
  cases (if e.prototype_inited then e
      else prepare_prototype store e).similarity_fn with
  | error msg => rfl
  | ok f => rw [hv]

/-- Witness for C4's amended theorem at the concrete unconfigured engine. -/
theorem unknown_source_marks_ready_witness :
    ((Engine.mk (.name "cosine_similarity") .noSource false none
        (-1)).predict emptyStore [[1]]).2.2 = none :=
  (unknown_source_marks_ready_and_predict_fails emptyStore
    (Engine.mk (.name "cosine_similarity") .noSource false none (-1))
    [[1]] (Or.inl rfl) rfl).2.2

/-! ## Similarity selection: claim C6 (corrected) -/

/-- C6 is false on the code: constructing the engine with the unsupported
similarity name "euclidean" succeeds — `__init__` stores the name without any
validation, so no configuration error is raised at setup time. -/
theorem unsupported_similarity_counterexample :
    initEngine (.name "euclidean") (-1) .noSource
      = .ok { similarity := .name "euclidean", prototype := .noSource,
              prototype_inited := false, prototype_vecs := none,
              topk := -1 } := rfl

/-- C6 amended: an unsupported similarity name is accepted at setup time; the
failure surfaces only at query time, when `matching` first resolves the
`similarity_fn` property (and then as an attribute error on the missing
`similarity_way`, not the intended RuntimeError).  A configured callable is
used directly as the similarity function. -/
theorem unsupported_similarity_fails_at_query_time
    (s : String) (hs : s ≠ "cosine_similarity")
    (f : Mat → Mat → Mat) (e' e : Engine)
    (hn : e'.similarity = .name s) (hc : e.similarity = .callable f) :
    (∀ topk proto, ∃ eo, initEngine (.name s) topk proto = .ok eo)
    ∧ (∃ msg, e'.similarity_fn = .error msg
        ∧ ∀ feats, e'.matching feats = .error msg)
    ∧ e.similarity_fn = .ok f := by
  refine ⟨fun topk proto => ⟨_, rfl⟩,
    ⟨"AttributeError: object has no attribute similarity_way", ?_, ?_⟩, ?_⟩
  · simp [Engine.similarity_fn, hn, hs]
  · intro feats
    rw [Engine.matching]
    simp [Engine.similarity_fn, hn, hs]
  · simp [Engine.similarity_fn, hc]

/-- Witness for C6's amended theorem at the name "euclidean" and the identity
callable. -/
theorem unsupported_similarity_witness :
    (∃ msg, (Engine.mk (.name "euclidean") .noSource false none
        (-1)).matching [[1]] = .error msg)
    ∧ (Engine.mk (.callable fun a _ => a) .noSource false none
        (-1)).similarity_fn = .ok (fun a _ => a) := by
  obtain ⟨-, ⟨msg, -, hmatch⟩, hcall⟩ :=
    unsupported_similarity_fails_at_query_time "euclidean" (by decide)
      (fun a _ => a)
      (Engine.mk (.name "euclidean") .noSource false none (-1))
      (Engine.mk (.callable fun a _ => a) .noSource false none (-1)) rfl rfl
  exact ⟨⟨msg, hmatch [[1]]⟩, hcall⟩

/-! ## Direct-tensor source: claim C8 (corrected) -/

/-- C8 is false on the code: a direct tensor source undergoes no validation at
all — here the empty (zero-size) matrix is accepted as the database and the
engine is marked ready rather than rejecting it. -/
theorem tensor_validation_counterexample :
    ∃ e, initEngine (.name "cosine_similarity") (-1) (.tensor []) = .ok e
      ∧ (prepare_prototype emptyStore e).prototype_vecs = some []
      ∧ (prepare_prototype emptyStore e).prototype_inited = true :=
  ⟨_, rfl, rfl, rfl⟩

/-- C8 amended: a direct tensor source is used as-is: `prepare_prototype`
installs it as the database and marks the engine ready without any 2-D shape
or non-empty size check, for every tensor including malformed ones. -/
theorem tensor_used_without_validation (store : Store) (e : Engine) (t : Mat)
    (h : e.prototype = .tensor t) :
    prepare_prototype store e
      = { e with prototype_vecs := some t, prototype_inited := true } := by
  simp [prepare_prototype, h]

/-- Witness for C8's amended theorem at the empty tensor. -/
theorem tensor_used_without_validation_witness :
    prepare_prototype emptyStore
        (Engine.mk (.name "cosine_similarity") (.tensor []) false none (-1))
      = Engine.mk (.name "cosine_similarity") (.tensor []) true (some []) (-1) :=
  tensor_used_without_validation emptyStore
    (Engine.mk (.name "cosine_similarity") (.tensor []) false none (-1)) [] rfl

/-! ## Persistence round-trip: claim C7 -/

/-- C7: saving a built prototype database and loading it back through a fresh
engine configured with the saved path yields exactly the same embedding
matrix, element for element. -/
theorem dump_then_load_roundtrip (store : Store) (e e2 : Engine)
    (path : String) (db : Mat)
    (hi : e.prototype_inited = true) (hv : e.prototype_vecs = some db)
    (hp : e2.prototype = .path path) :
    (dump_prototype store e path).1 = e
    ∧ (prepare_prototype (dump_prototype store e path).2 e2).prototype_vecs
        = some db := by
  constructor
  · simp [dump_prototype, hi]
  · simp [dump_prototype, prepare_prototype, hp, hi, hv]

/-- Witness for C7 at a concrete built database and path. -/
theorem dump_then_load_roundtrip_witness :
    (prepare_prototype
        (dump_prototype emptyStore
          (Engine.mk (.name "cosine_similarity") (.tensor [[1, 2], [3, 4]])
            true (some [[1, 2], [3, 4]]) (-1)) "proto.pth").2
        (Engine.mk (.name "cosine_similarity") (.path "proto.pth") false none
          (-1))).prototype_vecs = some [[1, 2], [3, 4]] :=
  (dump_then_load_roundtrip emptyStore
    (Engine.mk (.name "cosine_similarity") (.tensor [[1, 2], [3, 4]]) true
      (some [[1, 2], [3, 4]]) (-1))
    (Engine.mk (.name "cosine_similarity") (.path "proto.pth") false none (-1))
    "proto.pth" [[1, 2], [3, 4]] rfl rfl rfl).2

/-! ## Distributed sharded build: claim C5 -/

lemma writeItems_cons (m : Mat) (it : ℕ × Vec) (rest : List (ℕ × Vec)) :
    writeItems m (it :: rest) = writeItems (m.set it.1 it.2) rest := rfl

lemma writeItems_append (m : Mat) (l l' : List (ℕ × Vec)) :
    writeItems m (l ++ l') = writeItems (writeItems m l) l' :=
  List.foldl_append _ _ _ _

lemma writeItems_flatten (bs : List (List (ℕ × Vec))) (m : Mat) :
    writeItems m bs.flatten = bs.foldl writeItems m := by
  rw [writeItems, List.foldl_flatten]
  rfl

lemma writeItems_length (items : List (ℕ × Vec)) :
    ∀ (m : Mat), (writeItems m items).length = m.length := by
  induction items with
  | nil => intro m; rfl
  | cons it rest ih =>
    intro m
    rw [writeItems_cons, ih, List.length_set]

lemma writeItems_getElem?_not_mem (items : List (ℕ × Vec)) (i : ℕ)
    (h : i ∉ items.map Prod.fst) :
    ∀ (m : Mat), (writeItems m items)[i]? = m[i]? := by
  induction items with
  | nil => intro m; rfl
  | cons it rest ih =>
    intro m
    simp only [List.map_cons, List.mem_cons, not_or] at h
    rw [writeItems_cons, ih h.2, List.getElem?_set_ne (Ne.symm h.1)]

lemma writeItems_getElem?_mem (items : List (ℕ × Vec)) (i : ℕ) (v : Vec) :
    ∀ (m : Mat), (i, v) ∈ items → (items.map Prod.fst).Nodup →
      i < m.length → (writeItems m items)[i]? = some v := by
  induction items with
  | nil => intro m hmem _ _; cases hmem
  | cons it rest ih =>
    intro m hmem hnd hi
    simp only [List.map_cons, List.nodup_cons] at hnd
    rcases List.mem_cons.mp hmem with he | hmem'
    · subst he
      rw [writeItems_cons, writeItems_getElem?_not_mem rest i hnd.1,
        List.getElem?_set_self hi]
    · rw [writeItems_cons]
      exact ih _ hmem' hnd.2 (by rw [List.length_set]; exact hi)

lemma writeItems_rows (items : List (ℕ × Vec)) :
    ∀ (m : Mat) (r : Vec), r ∈ writeItems m items →
      r ∈ m ∨ ∃ it ∈ items, r = it.2 := by
  induction items with
  | nil => intro m r hr; exact Or.inl hr
  | cons it rest ih =>
    intro m r hr
    rw [writeItems_cons] at hr
    rcases ih _ r hr with hm | ⟨it', hit', he⟩
    · rcases List.mem_or_eq_of_mem_set hm with h | h
      · exact Or.inl h
      · exact Or.inr ⟨it, List.mem_cons_self _ _, h⟩
    · exact Or.inr ⟨it', List.mem_cons_of_mem _ hit', he⟩

lemma zerosMat_length (num dim : ℕ) : (zerosMat num dim).length = num :=
  List.length_replicate _ _

lemma zerosMat_getElem? (num dim i : ℕ) :
    (zerosMat num dim)[i]?
      = if i < num then some (List.replicate dim 0) else none :=
  List.getElem?_replicate

lemma zipWith_zero_add (r : Vec) :
    ∀ (dim : ℕ), r.length = dim →
      List.zipWith (· + ·) (List.replicate dim (0:ℚ)) r = r := by
  induction r with
  | nil => intro dim h; cases h; rfl
  | cons x xs ih =>
    intro dim h
    cases dim with
    | zero => simp at h
    | succ n =>
      simp only [List.replicate_succ, List.zipWith_cons_cons, zero_add]
      rw [ih n (by simpa using h)]

lemma zipWith_add_zero (r : Vec) :
    ∀ (dim : ℕ), r.length = dim →
      List.zipWith (· + ·) r (List.replicate dim (0:ℚ)) = r := by
  induction r with
  | nil => intro dim h; cases h; rfl
  | cons x xs ih =>
    intro dim h
    cases dim with
    | zero => simp at h
    | succ n =>
      simp only [List.replicate_succ, List.zipWith_cons_cons, add_zero]
      rw [ih n (by simpa using h)]

lemma localBuild_go (num : ℕ) (bs : List (List (ℕ × Vec))) :
    ∀ (m : Mat),
      bs.foldl (fun acc batch =>
          some (writeItems (acc.getD (zerosMat num (batchDim batch))) batch))
        (some m)
      = some (bs.foldl writeItems m) := by
  induction bs with
  | nil => intro m; rfl
  | cons b rest ih =>
    intro m
    rw [List.foldl_cons, List.foldl_cons]
    exact ih _

/-- The single-worker corpus pass of a nonempty loader with a consistent
feature width is a write of every item over the zero buffer. -/
lemma localBuild_eq (num dim : ℕ) (corpus : List (List (ℕ × Vec)))
    (hne : corpus ≠ []) (hdim : ∀ b ∈ corpus, batchDim b = dim) :
    localBuild num corpus
      = some (writeItems (zerosMat num dim) corpus.flatten) := by
  cases corpus with
  | nil => exact absurd rfl hne
  | cons b bs =>
    rw [localBuild, List.foldl_cons]
    have hb : batchDim b = dim := hdim b (List.mem_cons_self _ _)
    rw [show ((none : Option Mat).getD (zerosMat num (batchDim b)))
        = zerosMat num (batchDim b) from rfl, hb, localBuild_go,
      List.flatten_cons, writeItems_append, writeItems_flatten]

lemma matAdd_length (a b : Mat) :
    (matAdd a b).length = min a.length b.length :=
  List.length_zipWith _ _ _

/-- Adding a zero-initialised buffer written only at disjoint rows to a matrix
that is zero at those rows is the same as writing the rows into the matrix. -/
lemma matAdd_writeItems (num dim : ℕ) (m : Mat) (items : List (ℕ × Vec))
    (hmlen : m.length = num)
    (hrows : ∀ r ∈ m, r.length = dim)
    (hzero : ∀ it ∈ items, m[it.1]? = some (List.replicate dim 0))
    (hv : ∀ it ∈ items, it.2.length = dim)
    (hidx : ∀ it ∈ items, it.1 < num)
    (hnd : (items.map Prod.fst).Nodup) :
    matAdd m (writeItems (zerosMat num dim) items) = writeItems m items := by
  apply List.ext_getElem?
  intro i
  by_cases hi : i < num
  · by_cases hmem : i ∈ items.map Prod.fst
    · obtain ⟨it, hit, hfst⟩ := List.mem_map.mp hmem
      obtain ⟨i', v⟩ := it
      cases hfst
      have h1 : (writeItems (zerosMat num dim) items)[i']? = some v :=
        writeItems_getElem?_mem items i' v _ hit hnd
          (by rw [zerosMat_length]; exact hidx _ hit)
      have h2 : (writeItems m items)[i']? = some v :=
        writeItems_getElem?_mem items i' v _ hit hnd
          (by rw [hmlen]; exact hidx _ hit)
      rw [matAdd, List.getElem?_zipWith, h1, hzero _ hit, h2]
      exact congrArg some (zipWith_zero_add v dim (hv _ hit))
    · have h1 : (writeItems (zerosMat num dim) items)[i]?
          = (zerosMat num dim)[i]? :=
        writeItems_getElem?_not_mem items i hmem _
      have h2 : (writeItems m items)[i]? = m[i]? :=
        writeItems_getElem?_not_mem items i hmem _
      have hilt : i < m.length := by rw [hmlen]; exact hi
      have hm : m[i]? = some (m.get ⟨i, hilt⟩) := List.getElem?_eq_getElem hilt
      rw [matAdd, List.getElem?_zipWith, h1, zerosMat_getElem?, if_pos hi, h2,
        hm]
      exact congrArg some (zipWith_add_zero _ dim (hrows _ (List.getElem_mem hilt)))
  · have hw : (writeItems (zerosMat num dim) items).length = num := by
      rw [writeItems_length, zerosMat_length]
    have h1 : (matAdd m (writeItems (zerosMat num dim) items))[i]? = none :=
      List.getElem?_eq_none (by rw [matAdd_length, hmlen, hw]; omega)
    have h2 : (writeItems m items)[i]? = none :=
      List.getElem?_eq_none (by rw [writeItems_length, hmlen]; omega)
    rw [h1, h2]

lemma writeItems_zeros_rows (num dim : ℕ) (items : List (ℕ × Vec))
    (hv : ∀ it ∈ items, it.2.length = dim) :
    ∀ r ∈ writeItems (zerosMat num dim) items, r.length = dim := by
  intro r hr
  rcases writeItems_rows items _ r hr with hm | ⟨it, hit, he⟩
  · rw [List.eq_of_mem_replicate hm, List.length_replicate]
  · rw [he]
    exact hv _ hit

/-- Summing the per-worker buffers from the left reconstructs the write of the
concatenated item lists, as long as all row indices are pairwise distinct. -/
lemma allReduce_go (num dim : ℕ) (itemss : List (List (ℕ × Vec))) :
    ∀ (prev : List (ℕ × Vec)),
      (∀ it ∈ prev ++ itemss.flatten, it.2.length = dim) →
      (∀ it ∈ prev ++ itemss.flatten, it.1 < num) →
      ((prev ++ itemss.flatten).map Prod.fst).Nodup →
      itemss.foldl
          (fun acc items => matAdd acc (writeItems (zerosMat num dim) items))
          (writeItems (zerosMat num dim) prev)
        = writeItems (zerosMat num dim) (prev ++ itemss.flatten) := by
  induction itemss with
  | nil => intro prev _ _ _; simp
  | cons items rest ih =>
    intro prev hv hidx hnd
    have hsplit : prev ++ (items :: rest).flatten
        = (prev ++ items) ++ rest.flatten := by
      rw [List.flatten_cons, List.append_assoc]
    rw [hsplit] at hv hidx hnd
    have hnd' := hnd
    simp only [List.map_append, List.nodup_append] at hnd'
    have hdisj : ∀ it ∈ items, it.1 ∉ prev.map Prod.fst := by
      intro it hit hmem
      exact (List.disjoint_left.mp hnd'.1.2.2) hmem
        (List.mem_map_of_mem _ hit)
    have hstep : matAdd (writeItems (zerosMat num dim) prev)
        (writeItems (zerosMat num dim) items)
        = writeItems (writeItems (zerosMat num dim) prev) items := by
      refine matAdd_writeItems num dim _ items ?_ ?_ ?_ ?_ ?_ ?_
      · rw [writeItems_length, zerosMat_length]
      · exact writeItems_zeros_rows num dim prev
          (fun it hit => hv it (List.mem_append_left _ (List.mem_append_left _ hit)))
      · intro it hit
        rw [writeItems_getElem?_not_mem prev _ (hdisj it hit),
          zerosMat_getElem?,
          if_pos (hidx it (List.mem_append_left _ (List.mem_append_right _ hit)))]
      · exact fun it hit =>
          hv it (List.mem_append_left _ (List.mem_append_right _ hit))
      · exact fun it hit =>
          hidx it (List.mem_append_left _ (List.mem_append_right _ hit))
      · exact hnd'.1.2.1
    rw [List.foldl_cons, hstep, ← writeItems_append, hsplit]
    exact ih (prev ++ items) hv hidx hnd

/-- Helper: the data content of the sharded build.  For every corpus
partitioned disjointly over the workers (every `sample_idx` written by exactly
one worker): (a) each worker's local pass writes only the rows of its own
shard and leaves every other row zero, and (b) the element-wise sum of all the
workers' buffers is bit-identical to the database a single worker builds from
the whole corpus. -/
lemma sharded_build_matches_single (num dim : ℕ)
    (shards : List (List (List (ℕ × Vec))))
    (hsne : ∀ s ∈ shards, s ≠ [])
    (hdim : ∀ s ∈ shards, ∀ b ∈ s, batchDim b = dim)
    (hv : ∀ s ∈ shards, ∀ b ∈ s, ∀ it ∈ b, it.2.length = dim)
    (hidx : ∀ s ∈ shards, ∀ b ∈ s, ∀ it ∈ b, it.1 < num)
    (hnd : (shards.flatten.flatten.map Prod.fst).Nodup) :
    (∀ s ∈ shards,
        localBuild num s = some (writeItems (zerosMat num dim) s.flatten)
        ∧ ∀ i, i < num → i ∉ s.flatten.map Prod.fst →
            (writeItems (zerosMat num dim) s.flatten)[i]?
              = some (List.replicate dim 0))
    ∧ allReduceSum num dim
        (shards.map fun s => (localBuild num s).getD (zerosMat num dim))
      = (localBuild num shards.flatten).getD (zerosMat num dim) := by
  have hA : ∀ s ∈ shards,
      localBuild num s = some (writeItems (zerosMat num dim) s.flatten) :=
    fun s hs => localBuild_eq num dim s (hsne s hs) (hdim s hs)
  have hzero : ∀ s ∈ shards, ∀ i, i < num → i ∉ s.flatten.map Prod.fst →
      (writeItems (zerosMat num dim) s.flatten)[i]?
        = some (List.replicate dim 0) := by
    intro s _hs i hilt hnmem
    rw [writeItems_getElem?_not_mem _ _ hnmem, zerosMat_getElem?, if_pos hilt]
  have hitem_v : ∀ it ∈ shards.flatten.flatten, it.2.length = dim := by
    intro it hit
    obtain ⟨b, hb, hitb⟩ := List.mem_flatten.mp hit
    obtain ⟨s, hsh, hbs⟩ := List.mem_flatten.mp hb
    exact hv s hsh b hbs it hitb
  have hitem_i : ∀ it ∈ shards.flatten.flatten, it.1 < num := by
    intro it hit
    obtain ⟨b, hb, hitb⟩ := List.mem_flatten.mp hit
    obtain ⟨s, hsh, hbs⟩ := List.mem_flatten.mp hb
    exact hidx s hsh b hbs it hitb
  have hbatch_dim : ∀ b ∈ shards.flatten, batchDim b = dim := by
    intro b hb
    obtain ⟨s, hsh, hbs⟩ := List.mem_flatten.mp hb
    exact hdim s hsh b hbs
  have hRHS : (localBuild num shards.flatten).getD (zerosMat num dim)
      = writeItems (zerosMat num dim) shards.flatten.flatten := by
    cases shards with
    | nil => rfl
    | cons s ss =>
      have hs' : s ≠ [] := hsne s (List.mem_cons_self _ _)
      have hne : (s :: ss).flatten ≠ [] := by
        rw [List.flatten_cons]
        cases s with
        | nil => exact absurd rfl hs'
        | cons b bs => simp
      rw [localBuild_eq num dim (s :: ss).flatten hne hbatch_dim]
      rfl
  have hmap : shards.map (fun s => (localBuild num s).getD (zerosMat num dim))
      = shards.map (fun s => writeItems (zerosMat num dim) s.flatten) :=
    List.map_congr_left (fun s hs => by rw [hA s hs]; rfl)
  refine ⟨fun s hs => ⟨hA s hs, hzero s hs⟩, ?_⟩
  rw [hmap, hRHS, allReduceSum, List.foldl_map]
  have hgo := allReduce_go num dim (shards.map List.flatten) []
    (by rw [List.nil_append, ← List.flatten_flatten]; exact hitem_v)
    (by rw [List.nil_append, ← List.flatten_flatten]; exact hitem_i)
    (by rw [List.nil_append, ← List.flatten_flatten]; exact hnd)
  rw [List.foldl_map] at hgo
  rw [List.nil_append, ← List.flatten_flatten] at hgo
  exact hgo

/-- C5 is false on the code: the reduction is launched with `async_op=True`
and the work handle is discarded, never awaited (`image2image.py` lines
268-270), so a worker may proceed while its buffer still holds only its own
shard's rows; at the concrete two-worker corpus that admissible observed
buffer differs from the single-worker database, refuting "completes before
any worker proceeds" and the unconditional bit-identity. -/
theorem async_reduce_counterexample :
    ¬ (∀ obs : Mat,
        AsyncReduceObs
          ((localBuild 2 [[(0, [1])]]).getD (zerosMat 2 1))
          (allReduceSum 2 1
            ([[[(0, [1])]], [[(1, [2])]]].map fun s =>
              (localBuild 2 s).getD (zerosMat 2 1)))
          obs →
        obs = (localBuild 2 [[(0, [1])], [(1, [2])]]).getD (zerosMat 2 1)) := by
  intro h
  have hpend := h _ AsyncReduceObs.pending
  revert hpend
  decide

/-- C5 amended: during the distributed build each worker writes only the rows
of its own shard, leaving every other row zero, and the sum the collective
computes is bit-identical to the single-worker build of the same corpus; but
because the reduction is launched with `async_op=True` and its handle is
discarded without `wait()`, completion before a worker proceeds is *not*
guaranteed: what a worker observes afterwards is either its local unreduced
buffer (reduction still pending) or the completed reduction. -/
theorem sharded_build_sum_reconstructs (num dim : ℕ)
    (shards : List (List (List (ℕ × Vec))))
    (hsne : ∀ s ∈ shards, s ≠ [])
    (hdim : ∀ s ∈ shards, ∀ b ∈ s, batchDim b = dim)
    (hv : ∀ s ∈ shards, ∀ b ∈ s, ∀ it ∈ b, it.2.length = dim)
    (hidx : ∀ s ∈ shards, ∀ b ∈ s, ∀ it ∈ b, it.1 < num)
    (hnd : (shards.flatten.flatten.map Prod.fst).Nodup) :
    (∀ s ∈ shards,
        localBuild num s = some (writeItems (zerosMat num dim) s.flatten)
        ∧ ∀ i, i < num → i ∉ s.flatten.map Prod.fst →
            (writeItems (zerosMat num dim) s.flatten)[i]?
              = some (List.replicate dim 0))
    ∧ allReduceSum num dim
        (shards.map fun s => (localBuild num s).getD (zerosMat num dim))
      = (localBuild num shards.flatten).getD (zerosMat num dim)
    ∧ (∀ s ∈ shards, ∀ obs : Mat,
        AsyncReduceObs ((localBuild num s).getD (zerosMat num dim))
          (allReduceSum num dim
            (shards.map fun t => (localBuild num t).getD (zerosMat num dim)))
          obs →
        obs = (localBuild num s).getD (zerosMat num dim)
        ∨ obs = (localBuild num shards.flatten).getD (zerosMat num dim)) := by
  obtain ⟨h1, h2⟩ :=
    sharded_build_matches_single num dim shards hsne hdim hv hidx hnd
  refine ⟨h1, h2, ?_⟩
  intro s _hs obs hobs
  cases hobs with
  | pending => exact Or.inl rfl
  | completed => exact Or.inr h2

/-- Witness for C5's amended theorem: two workers, one row each, over a 2-row
corpus; the completed reduction equals the single-worker build. -/
theorem sharded_build_sum_reconstructs_witness :
    allReduceSum 2 1
        ([[[(0, [1])]], [[(1, [2])]]].map fun s =>
          (localBuild 2 s).getD (zerosMat 2 1))
      = (localBuild 2 [[(0, [1])], [(1, [2])]]).getD (zerosMat 2 1) :=
  (sharded_build_sum_reconstructs 2 1 [[[(0, [1])]], [[(1, [2])]]]
    (by decide) (by decide) (by decide) (by decide) (by decide)).2.1
